import Mathlib

/-!
Verification development for a ray-tracer core (Rust sources:
`intersections.rs`, `spheres.rs`, `camera.rs`, `canvas.rs`, `shapes/mod.rs`).

Floating-point numbers (`f64`) are modelled by exact rationals `ℚ`.
Transcendental operations of the source (`f64::sqrt`, `f64::tan`) are
modelled as explicit parameters: a function `sqrtf : ℚ → ℚ` threaded to the
definitions that call `sqrt`, constrained by hypotheses (`0 ≤ sqrtf d`,
`sqrtf d * sqrtf d = d`) exactly where the source relies on the meaning of
the square root; the camera's `(fov/2).tan()` is passed as the already
computed value `half_view`.
-/

namespace RT

/-- Modelled from the spec: homogeneous-coordinate tuple (`Point` has `w = 1`,
`Vector` has `w = 0`); the tuple module of the repository is not under `src/`.
Supports addition, subtraction, scalar multiplication and dot product. -/
@[ext]
structure V4 where
  x : ℚ
  y : ℚ
  z : ℚ
  w : ℚ
deriving DecidableEq

namespace V4

def add (a b : V4) : V4 := ⟨a.x + b.x, a.y + b.y, a.z + b.z, a.w + b.w⟩

def sub (a b : V4) : V4 := ⟨a.x - b.x, a.y - b.y, a.z - b.z, a.w - b.w⟩

def smul (q : ℚ) (a : V4) : V4 := ⟨q * a.x, q * a.y, q * a.z, q * a.w⟩

def dot (a b : V4) : ℚ := a.x * b.x + a.y * b.y + a.z * b.z + a.w * b.w

/-- `Point::new(x, y, z)` : homogeneous coordinate `w = 1`. -/
def point (x y z : ℚ) : V4 := ⟨x, y, z, 1⟩

/-- `Vector::new(x, y, z)` : homogeneous coordinate `w = 0`. -/
def vector (x y z : ℚ) : V4 := ⟨x, y, z, 0⟩

/-- Modelled from the spec: `Vector::normalize` divides a vector by its
magnitude `sqrt (v ⬝ v)`; the square root is supplied by the `sqrtf`
model parameter. -/
def normalize (sqrtf : ℚ → ℚ) (v : V4) : V4 :=
  smul (1 / sqrtf (dot v v)) v

end V4

/-- Modelled from the spec: 4×4 matrix of (rational-modelled) doubles;
`matrices.rs` of the repository is not under `src/`.  The spec: an affine
transform is a 4×4 homogeneous matrix, `inverse()` fails with `NoInverse`
when the determinant is (numerically) zero, application to a point or a
vector is a 4×1 matrix–vector product. -/
@[ext]
structure Matrix where
  m00 : ℚ
  m01 : ℚ
  m02 : ℚ
  m03 : ℚ
  m10 : ℚ
  m11 : ℚ
  m12 : ℚ
  m13 : ℚ
  m20 : ℚ
  m21 : ℚ
  m22 : ℚ
  m23 : ℚ
  m30 : ℚ
  m31 : ℚ
  m32 : ℚ
  m33 : ℚ
deriving DecidableEq

/-- The identity transform (`IDENTITY` in the source). -/
def IDENTITY : Matrix :=
  ⟨1, 0, 0, 0,
   0, 1, 0, 0,
   0, 0, 1, 0,
   0, 0, 0, 1⟩

namespace Matrix

/-- Matrix multiplication (row · column). -/
def mul (A B : Matrix) : Matrix :=
  ⟨A.m00 * B.m00 + A.m01 * B.m10 + A.m02 * B.m20 + A.m03 * B.m30,
   A.m00 * B.m01 + A.m01 * B.m11 + A.m02 * B.m21 + A.m03 * B.m31,
   A.m00 * B.m02 + A.m01 * B.m12 + A.m02 * B.m22 + A.m03 * B.m32,
   A.m00 * B.m03 + A.m01 * B.m13 + A.m02 * B.m23 + A.m03 * B.m33,
   A.m10 * B.m00 + A.m11 * B.m10 + A.m12 * B.m20 + A.m13 * B.m30,
   A.m10 * B.m01 + A.m11 * B.m11 + A.m12 * B.m21 + A.m13 * B.m31,
   A.m10 * B.m02 + A.m11 * B.m12 + A.m12 * B.m22 + A.m13 * B.m32,
   A.m10 * B.m03 + A.m11 * B.m13 + A.m12 * B.m23 + A.m13 * B.m33,
   A.m20 * B.m00 + A.m21 * B.m10 + A.m22 * B.m20 + A.m23 * B.m30,
   A.m20 * B.m01 + A.m21 * B.m11 + A.m22 * B.m21 + A.m23 * B.m31,
   A.m20 * B.m02 + A.m21 * B.m12 + A.m22 * B.m22 + A.m23 * B.m32,
   A.m20 * B.m03 + A.m21 * B.m13 + A.m22 * B.m23 + A.m23 * B.m33,
   A.m30 * B.m00 + A.m31 * B.m10 + A.m32 * B.m20 + A.m33 * B.m30,
   A.m30 * B.m01 + A.m31 * B.m11 + A.m32 * B.m21 + A.m33 * B.m31,
   A.m30 * B.m02 + A.m31 * B.m12 + A.m32 * B.m22 + A.m33 * B.m32,
   A.m30 * B.m03 + A.m31 * B.m13 + A.m32 * B.m23 + A.m33 * B.m33⟩

/-- Matrix–tuple product (4×1), the application of a transform to a
point or vector. -/
def mulVec (A : Matrix) (v : V4) : V4 :=
  ⟨A.m00 * v.x + A.m01 * v.y + A.m02 * v.z + A.m03 * v.w,
   A.m10 * v.x + A.m11 * v.y + A.m12 * v.z + A.m13 * v.w,
   A.m20 * v.x + A.m21 * v.y + A.m22 * v.z + A.m23 * v.w,
   A.m30 * v.x + A.m31 * v.y + A.m32 * v.z + A.m33 * v.w⟩

/-- Scalar multiple of a matrix. -/
def smulM (q : ℚ) (A : Matrix) : Matrix :=
  ⟨q * A.m00, q * A.m01, q * A.m02, q * A.m03,
   q * A.m10, q * A.m11, q * A.m12, q * A.m13,
   q * A.m20, q * A.m21, q * A.m22, q * A.m23,
   q * A.m30, q * A.m31, q * A.m32, q * A.m33⟩

/-- Determinant of a 3×3 minor, used for cofactors. -/
def det3 (a b c d e f g h i : ℚ) : ℚ :=
  a * (e * i - f * h) - b * (d * i - f * g) + c * (d * h - e * g)

/-- Determinant by cofactor expansion along the first row. -/
def det (A : Matrix) : ℚ :=
  A.m00 * det3 A.m11 A.m12 A.m13 A.m21 A.m22 A.m23 A.m31 A.m32 A.m33
  - A.m01 * det3 A.m10 A.m12 A.m13 A.m20 A.m22 A.m23 A.m30 A.m32 A.m33
  + A.m02 * det3 A.m10 A.m11 A.m13 A.m20 A.m21 A.m23 A.m30 A.m31 A.m33
  - A.m03 * det3 A.m10 A.m11 A.m12 A.m20 A.m21 A.m22 A.m30 A.m31 A.m32

/-- Adjugate (transpose of the cofactor matrix):
`adjugate A * A = det A • 1`. -/
def adjugate (A : Matrix) : Matrix :=
  ⟨ det3 A.m11 A.m12 A.m13 A.m21 A.m22 A.m23 A.m31 A.m32 A.m33,
   -det3 A.m01 A.m02 A.m03 A.m21 A.m22 A.m23 A.m31 A.m32 A.m33,
    det3 A.m01 A.m02 A.m03 A.m11 A.m12 A.m13 A.m31 A.m32 A.m33,
   -det3 A.m01 A.m02 A.m03 A.m11 A.m12 A.m13 A.m21 A.m22 A.m23,
   -det3 A.m10 A.m12 A.m13 A.m20 A.m22 A.m23 A.m30 A.m32 A.m33,
    det3 A.m00 A.m02 A.m03 A.m20 A.m22 A.m23 A.m30 A.m32 A.m33,
   -det3 A.m00 A.m02 A.m03 A.m10 A.m12 A.m13 A.m30 A.m32 A.m33,
    det3 A.m00 A.m02 A.m03 A.m10 A.m12 A.m13 A.m20 A.m22 A.m23,
    det3 A.m10 A.m11 A.m13 A.m20 A.m21 A.m23 A.m30 A.m31 A.m33,
   -det3 A.m00 A.m01 A.m03 A.m20 A.m21 A.m23 A.m30 A.m31 A.m33,
    det3 A.m00 A.m01 A.m03 A.m10 A.m11 A.m13 A.m30 A.m31 A.m33,
   -det3 A.m00 A.m01 A.m03 A.m10 A.m11 A.m13 A.m20 A.m21 A.m23,
   -det3 A.m10 A.m11 A.m12 A.m20 A.m21 A.m22 A.m30 A.m31 A.m32,
    det3 A.m00 A.m01 A.m02 A.m20 A.m21 A.m22 A.m30 A.m31 A.m32,
   -det3 A.m00 A.m01 A.m02 A.m10 A.m11 A.m12 A.m30 A.m31 A.m32,
    det3 A.m00 A.m01 A.m02 A.m10 A.m11 A.m12 A.m20 A.m21 A.m22⟩

/-- `Matrix::inverse()`: `none` models the `Err(NoInverseError)` of the
source; `some` carries the inverse matrix computed from the adjugate. -/
def inverse (A : Matrix) : Option Matrix :=
  if det A = 0 then none else some (smulM (det A)⁻¹ (adjugate A))

end Matrix

/-- Modelled from the spec: a Ray is an origin Point and a direction Vector;
`rays.rs` of the repository is not under `src/`.  `transformed` re-expresses
the ray under a transform: origin and direction both transformed.  (In the
source `Ray::transformed` can also fail with a defensive casting error; that
branch cannot fire for well-formed 4-tuples, which the model makes total.) -/
structure Ray where
  origin : V4
  direction : V4
deriving DecidableEq

def Ray.transformed (r : Ray) (M : Matrix) : Ray :=
  ⟨M.mulVec r.origin, M.mulVec r.direction⟩

/-- `EQUALITY_EPSILON` from `canvas.rs`: `0.00001`. -/
def EQUALITY_EPSILON : ℚ := 1 / 100000

/-- `Color` from `canvas.rs`: three doubles. -/
structure Color where
  red : ℚ
  green : ℚ
  blue : ℚ
deriving DecidableEq

/-- `impl PartialEq for Color` from `canvas.rs`: componentwise
`(self.c - other.c) < EQUALITY_EPSILON` — note: signed difference, no
absolute value. -/
def Color.eq (c other : Color) : Bool :=
  decide (c.red - other.red < EQUALITY_EPSILON)
    && decide (c.green - other.green < EQUALITY_EPSILON)
    && decide (c.blue - other.blue < EQUALITY_EPSILON)

/-- Modelled from the spec: pixel-buffer failure on out-of-bounds
coordinates (the buffer module is an external collaborator, not under
`src/`). -/
inductive CanvasError where
  | outOfBounds
deriving DecidableEq

/-- Modelled from the spec: the pixel buffer exposes `new(width, height)`,
`write_pixel(x, y, color) -> Result` and `pixel_at(x, y) -> Result<Color>`,
failing (not crashing) out of bounds.  Rows of pixels, row-major. -/
structure Canvas where
  width : ℕ
  height : ℕ
  rows : List (List Color)
deriving DecidableEq

def Canvas.new (w h : ℕ) : Canvas :=
  ⟨w, h, List.replicate h (List.replicate w ⟨0, 0, 0⟩)⟩

def Canvas.write_pixel (cv : Canvas) (x y : ℕ) (c : Color) :
    Except CanvasError Canvas :=
  if x < cv.width ∧ y < cv.height then
    .ok ⟨cv.width, cv.height, cv.rows.set y ((cv.rows.getD y []).set x c)⟩
  else .error .outOfBounds

def Canvas.pixel_at (cv : Canvas) (x y : ℕ) : Except CanvasError Color :=
  if x < cv.width ∧ y < cv.height then
    .ok ((cv.rows.getD y []).getD x ⟨0, 0, 0⟩)
  else .error .outOfBounds

/-- `Sphere` from `spheres.rs`: owns only a transform (default identity). -/
structure Sphere where
  transform : Matrix
deriving DecidableEq

/-- `IntersectingSphereError` from `spheres.rs`. -/
inductive IntersectingSphereError where
  | noInverse
  | castingMatrix
deriving DecidableEq

def Sphere.new : Sphere := ⟨IDENTITY⟩

/-- `Sphere::set_transform` from `spheres.rs`: stores the matrix with no
validation and cannot fail. -/
def Sphere.set_transform (s : Sphere) (transform : Matrix) : Sphere :=
  { s with transform := transform }

/-- `Intersection` from `intersections.rs`: a ray parameter `t` and the
object hit.  (The source's `PartialEq` compares only `t`.) -/
structure Intersection where
  t : ℚ
  object : Sphere
deriving DecidableEq

/-- `Intersections` from `intersections.rs`: insertion-ordered list. -/
structure Intersections where
  intersections : List Intersection
deriving DecidableEq

/-- One comparison step of Rust `Iterator::min_by` on intersections compared
by `t`: a later element replaces the accumulator only when strictly smaller,
so the first element attaining the minimum wins. -/
def minStep (acc j : Intersection) : Intersection :=
  if j.t < acc.t then j else acc

/-- Rust `Iterator::min_by` on intersections compared by `t`. -/
def minByT (l : List Intersection) : Option Intersection :=
  match l with
  | [] => none
  | i :: rest => some (rest.foldl minStep i)

/-- `Intersections::hit` from `intersections.rs`: filter `t ≥ 0`, then
`min_by` on `t`. -/
def Intersections.hit (xs : Intersections) : Option Intersection :=
  minByT (xs.intersections.filter (fun i => 0 ≤ i.t))

/-- `Sphere::intersect` from `spheres.rs`.  `sqrtf` models `f64::sqrt`,
applied to the discriminant exactly where the source calls
`discriminant.sqrt()`. -/
def Sphere.intersect (sqrtf : ℚ → ℚ) (s : Sphere) (r : Ray) :
    Except IntersectingSphereError Intersections :=
  match Matrix.inverse s.transform with
  | none => .error .noInverse
  | some minv =>
    let ray2 := r.transformed minv
    let sphere_to_ray := ray2.origin.sub (V4.point 0 0 0)
    let a := V4.dot ray2.direction ray2.direction
    let b := 2 * V4.dot ray2.direction sphere_to_ray
    let c := V4.dot sphere_to_ray sphere_to_ray - 1
    let discriminant := b * b - 4 * a * c
    if discriminant < 0 then
      .ok ⟨[]⟩
    else
      let t1 := (-b - sqrtf discriminant) / (2 * a)
      let t2 := (-b + sqrtf discriminant) / (2 * a)
      .ok ⟨[⟨t1, s⟩, ⟨t2, s⟩]⟩

/-- `NoInverseError` from `matrices.rs` (declared there; the type is a
unit-like error marker used by `Shape` and `Camera`). -/
inductive NoInverseError where
  | noInverse
deriving DecidableEq

/-- `Shape` from `shapes/mod.rs`: transform, cached inverse, a material and
a polymorphic model.  The material and model types are opaque to this core,
so the embedding takes them as type parameters. -/
structure Shape (μ : Type) (α : Type) where
  transform : Matrix
  inverse : Matrix
  material : μ
  model : α

/-- `Shape::new` from `shapes/mod.rs`: identity transform and inverse, the
default material, the given model. -/
def Shape.new {μ α : Type} (defaultMaterial : μ) (model : α) : Shape μ α :=
  ⟨IDENTITY, IDENTITY, defaultMaterial, model⟩

/-- `Shape::set_transform` from `shapes/mod.rs`: the inverse is computed
first (`transform.inverse()?`); only on success are both fields updated. -/
def Shape.set_transform {μ α : Type} (s : Shape μ α) (transform : Matrix) :
    Except NoInverseError (Shape μ α) :=
  match Matrix.inverse transform with
  | none => .error .noInverse
  | some inv => .ok { s with transform := transform, inverse := inv }

/-- `Camera` from `camera.rs`.  The source also stores `field_of_view : f64`,
read nowhere after construction; every computation uses only
`(field_of_view / 2.0).tan()`, so the model's constructor receives that
already computed tangent (`half_view`) and the unread field is omitted. -/
structure Camera where
  hsize : ℕ
  vsize : ℕ
  transform : Matrix
  inverse : Option Matrix
  half_width : ℚ
  half_height : ℚ
  pixel_size : ℚ
deriving DecidableEq

/-- `RayForPixelError` from `camera.rs`. -/
inductive RayForPixelError where
  | pixelOutOfBounds
  | noInverse
  | castingTransform
deriving DecidableEq

/-- `RenderError` from `camera.rs`. -/
inductive RenderError where
  | rayForPixel
  | colorAt
deriving DecidableEq

/-- `Camera::new` from `camera.rs`; `half_view` stands for the source's
`(field_of_view / 2.0).tan()`. -/
def Camera.new (hsize vsize : ℕ) (half_view : ℚ) : Camera :=
  let aspect : ℚ := (hsize : ℚ) / (vsize : ℚ)
  let half_width := if 1 ≤ aspect then half_view else half_view * aspect
  let half_height := if 1 ≤ aspect then half_view / aspect else half_view
  let pixel_size := (half_width * 2) / (hsize : ℚ)
  ⟨hsize, vsize, IDENTITY, some IDENTITY, half_width, half_height, pixel_size⟩

/-- `Camera::ray_for_pixel` from `camera.rs`.  Note the source's bounds
check is strict: `if x > self.hsize || y > self.vsize`.  The two casting
`map_err` branches of the source cannot fire in the model, where
matrix–tuple application is total. -/
def Camera.ray_for_pixel (sqrtf : ℚ → ℚ) (c : Camera) (x y : ℕ) :
    Except RayForPixelError Ray :=
  if x > c.hsize ∨ y > c.vsize then .error .pixelOutOfBounds
  else
    match c.inverse with
    | none => .error .noInverse
    | some inv =>
      let xoffset := ((x : ℚ) + 1/2) * c.pixel_size
      let yoffset := ((y : ℚ) + 1/2) * c.pixel_size
      let world_x := c.half_width - xoffset
      let world_y := c.half_height - yoffset
      let pixel := inv.mulVec (V4.point world_x world_y (-1))
      let origin := inv.mulVec (V4.point 0 0 0)
      let direction := V4.normalize sqrtf (pixel.sub origin)
      .ok ⟨origin, direction⟩

/-- `Camera::set_transform` from `camera.rs`, as written in the source:
`self.transform` is assigned first, and only then is
`self.transform.inverse()?` attempted — so on failure the new transform has
already been stored while `inverse` keeps its previous value.  The `&mut
self` mutation is modelled by returning the result together with the
post-call camera state. -/
def Camera.set_transform (c : Camera) (t : Matrix) :
    Except NoInverseError Unit × Camera :=
  let c1 := { c with transform := t }
  match Matrix.inverse c1.transform with
  | none => (.error .noInverse, c1)
  | some inv => (.ok (), { c1 with inverse := some inv })

/-- One pixel of `Camera::render` from `camera.rs`, up to the write: the
ray's failure is tagged `RayForPixel`, the color's failure `ColorAt`.  The
world collaborator is abstract: `color_from` with an abstract error type. -/
def Camera.pixelResult {ω : Type} (sqrtf : ℚ → ℚ)
    (color_from : Ray → Except ω Color) (c : Camera) (x y : ℕ) :
    Except RenderError Color :=
  match c.ray_for_pixel sqrtf x y with
  | .error _ => .error .rayForPixel
  | .ok ray =>
    match color_from ray with
    | .error _ => .error .colorAt
    | .ok color => .ok color

/-- The source's `image.write_pixel(x, y, color).expect(..)`: the write is
always in bounds during `render`, so the `.expect` panic branch is
unreachable; the model keeps the canvas unchanged on that dead branch. -/
def writeStep (cv : Canvas) (x y : ℕ) (color : Color) : Canvas :=
  match cv.write_pixel x y color with
  | .ok cv2 => cv2
  | .error _ => cv

/-- The inner `for x in 0..self.hsize` loop of `Camera::render`, processing
pixels `x, x+1, …` of row `y`, `k` of them. -/
def Camera.renderRow {ω : Type} (sqrtf : ℚ → ℚ)
    (color_from : Ray → Except ω Color) (c : Camera) (y : ℕ) :
    ℕ → ℕ → Canvas → Except RenderError Canvas
  | _, 0, cv => .ok cv
  | x, Nat.succ k, cv =>
    match c.pixelResult sqrtf color_from x y with
    | .error e => .error e
    | .ok color =>
      Camera.renderRow sqrtf color_from c y (x + 1) k (writeStep cv x y color)

/-- The outer `for y in 0..self.vsize` loop of `Camera::render`. -/
def Camera.renderRows {ω : Type} (sqrtf : ℚ → ℚ)
    (color_from : Ray → Except ω Color) (c : Camera) :
    ℕ → ℕ → Canvas → Except RenderError Canvas
  | _, 0, cv => .ok cv
  | y, Nat.succ k, cv =>
    match Camera.renderRow sqrtf color_from c y 0 c.hsize cv with
    | .error e => .error e
    | .ok cv2 => Camera.renderRows sqrtf color_from c (y + 1) k cv2

/-- `Camera::render` from `camera.rs`: a fresh `hsize × vsize` canvas,
filled row-major; the first per-pixel failure aborts the whole render. -/
def Camera.render {ω : Type} (sqrtf : ℚ → ℚ)
    (color_from : Ray → Except ω Color) (c : Camera) :
    Except RenderError Canvas :=
  Camera.renderRows sqrtf color_from c 0 c.vsize (Canvas.new c.hsize c.vsize)

/-! ### Auxiliary definitions used by the verification statements -/

/-- Componentwise approximate equality of tuples with the spec's tolerance
ε = 1e-5. -/
def approxV (u v : V4) : Prop :=
  |u.x - v.x| < EQUALITY_EPSILON ∧ |u.y - v.y| < EQUALITY_EPSILON
    ∧ |u.z - v.z| < EQUALITY_EPSILON ∧ |u.w - v.w| < EQUALITY_EPSILON

instance (u v : V4) : Decidable (approxV u v) := by
  unfold approxV; infer_instance

/-- Raw pixel read used to reason about the canvas contents. -/
def Canvas.getPix (cv : Canvas) (x y : ℕ) : Color :=
  (cv.rows.getD y []).getD x ⟨0, 0, 0⟩

/-- Well-formedness of the row representation: as many rows as `height`,
each of length `width`. -/
def Canvas.wf (cv : Canvas) : Prop :=
  cv.rows.length = cv.height ∧ ∀ row ∈ cv.rows, row.length = cv.width

/-- The caller-side effect of one `Shape::set_transform` call: on success
the shape is replaced, on failure (`?` early return) it is kept as it was. -/
def Shape.step {μ α : Type} (s : Shape μ α) (t : Matrix) : Shape μ α :=
  match s.set_transform t with
  | .ok s2 => s2
  | .error _ => s

/-- A sequence of `set_transform` calls (successful or failed). -/
def Shape.applyAll {μ α : Type} (s : Shape μ α) (ts : List Matrix) : Shape μ α :=
  ts.foldl Shape.step s

/-- The 4×4 zero matrix: determinant 0, hence non-invertible. -/
def zeroMatrix : Matrix := ⟨0, 0, 0, 0, 0, 0, 0, 0, 0, 0, 0, 0, 0, 0, 0, 0⟩

/-- The translation by (2, 3, 4), a concrete invertible transform. -/
def translationM : Matrix :=
  ⟨1, 0, 0, 2,
   0, 1, 0, 3,
   0, 0, 1, 4,
   0, 0, 0, 1⟩

/-- The inverse of `translationM`: translation by (-2, -3, -4). -/
def translationMInv : Matrix :=
  ⟨1, 0, 0, -2,
   0, 1, 0, -3,
   0, 0, 1, -4,
   0, 0, 0, 1⟩

/-- A concrete stand-in for `f64::sqrt` adequate for the discriminants 4 and
0 arising in the unit-sphere scenarios. -/
def sqrtExample : ℚ → ℚ := fun q => if q = 4 then 2 else 0

/-- A constant-color world collaborator, used for concrete render runs. -/
def cfConst : Ray → Except Unit Color := fun _ => .ok ⟨1, 2, 3⟩

/-- The `a = d·d` coefficient computed by `Sphere::intersect` for the ray
transformed into object space by `m`. -/
def sphereQuadA (m : Matrix) (r : Ray) : ℚ :=
  V4.dot (r.transformed m).direction (r.transformed m).direction

/-- The `b = 2·(d·o)` coefficient of `Sphere::intersect`, with `o` the
local-space origin offset `ray2.origin - Point(0,0,0)`. -/
def sphereQuadB (m : Matrix) (r : Ray) : ℚ :=
  2 * V4.dot (r.transformed m).direction ((r.transformed m).origin.sub (V4.point 0 0 0))

/-- The `c = o·o − 1` coefficient of `Sphere::intersect`. -/
def sphereQuadC (m : Matrix) (r : Ray) : ℚ :=
  V4.dot ((r.transformed m).origin.sub (V4.point 0 0 0))
    ((r.transformed m).origin.sub (V4.point 0 0 0)) - 1

/-- The discriminant `b² − 4ac` of `Sphere::intersect`. -/
def sphereDisc (m : Matrix) (r : Ray) : ℚ :=
  sphereQuadB m r * sphereQuadB m r - 4 * sphereQuadA m r * sphereQuadC m r

/-! ### Supporting instances and matrix algebra -/

instance {ε α : Type} [DecidableEq ε] [DecidableEq α] :
    DecidableEq (Except ε α)
  | .ok a, .ok b => decidable_of_iff (a = b) (by simp)
  | .ok _, .error _ => isFalse (by simp)
  | .error _, .ok _ => isFalse (by simp)
  | .error e, .error f => decidable_of_iff (e = f) (by simp)

theorem Matrix.mul_mulVec (A B : Matrix) (v : V4) :
    (A.mul B).mulVec v = A.mulVec (B.mulVec v) := by
  cases A; cases B; cases v
  ext <;> simp [Matrix.mul, Matrix.mulVec] <;> ring

theorem Matrix.IDENTITY_mulVec (v : V4) : IDENTITY.mulVec v = v := by
  cases v
  ext <;> simp [Matrix.mulVec, IDENTITY]

theorem Matrix.adjugate_mul (A : Matrix) :
    (Matrix.adjugate A).mul A = Matrix.smulM A.det IDENTITY := by
  cases A
  ext <;> simp [Matrix.mul, Matrix.adjugate, Matrix.det, Matrix.det3,
    Matrix.smulM, IDENTITY] <;> ring

theorem Matrix.mul_adjugate (A : Matrix) :
    A.mul (Matrix.adjugate A) = Matrix.smulM A.det IDENTITY := by
  cases A
  ext <;> simp [Matrix.mul, Matrix.adjugate, Matrix.det, Matrix.det3,
    Matrix.smulM, IDENTITY] <;> ring

theorem Matrix.smulM_mul (q : ℚ) (A B : Matrix) :
    (Matrix.smulM q A).mul B = Matrix.smulM q (A.mul B) := by
  cases A; cases B
  ext <;> simp [Matrix.mul, Matrix.smulM] <;> ring

theorem Matrix.mul_smulM (q : ℚ) (A B : Matrix) :
    A.mul (Matrix.smulM q B) = Matrix.smulM q (A.mul B) := by
  cases A; cases B
  ext <;> simp [Matrix.mul, Matrix.smulM] <;> ring

theorem Matrix.smulM_smulM (p q : ℚ) (A : Matrix) :
    Matrix.smulM p (Matrix.smulM q A) = Matrix.smulM (p * q) A := by
  cases A
  ext <;> simp [Matrix.smulM] <;> ring

theorem Matrix.smulM_one (A : Matrix) : Matrix.smulM 1 A = A := by
  cases A
  ext <;> simp [Matrix.smulM]

/-- Correctness of the cached inverse: when `inverse` succeeds it returns a
two-sided multiplicative inverse. -/
theorem Matrix.inverse_spec (A B : Matrix) (h : Matrix.inverse A = some B) :
    B.mul A = IDENTITY ∧ A.mul B = IDENTITY := by
  unfold Matrix.inverse at h
  split at h
  · exact absurd h (by simp)
  · rename_i hdet
    have hB : B = Matrix.smulM (Matrix.det A)⁻¹ (Matrix.adjugate A) := by
      exact (Option.some.injEq _ _ ▸ h).symm
    subst hB
    constructor
    · rw [Matrix.smulM_mul, Matrix.adjugate_mul, Matrix.smulM_smulM,
        inv_mul_cancel₀ hdet, Matrix.smulM_one]
    · rw [Matrix.mul_smulM, Matrix.mul_adjugate, Matrix.smulM_smulM,
        inv_mul_cancel₀ hdet, Matrix.smulM_one]

theorem Matrix.inverse_IDENTITY : Matrix.inverse IDENTITY = some IDENTITY := by
  unfold Matrix.inverse
  norm_num [Matrix.det, Matrix.det3, Matrix.adjugate, Matrix.smulM, IDENTITY]

/-! ### Hit selection (`Intersections::hit`) -/

theorem minStep_le_left (acc j : Intersection) : (minStep acc j).t ≤ acc.t := by
  unfold minStep; split
  · exact le_of_lt (by assumption)
  · exact le_refl _

theorem minStep_le_right (acc j : Intersection) : (minStep acc j).t ≤ j.t := by
  unfold minStep; split
  · exact le_refl _
  · exact le_of_not_lt (by assumption)

theorem minStep_cases (acc j : Intersection) :
    minStep acc j = acc ∨ minStep acc j = j := by
  unfold minStep; split
  · exact Or.inr rfl
  · exact Or.inl rfl

theorem foldlMin_spec (rest : List Intersection) :
    ∀ acc : Intersection,
      (rest.foldl minStep acc = acc ∨ rest.foldl minStep acc ∈ rest)
      ∧ (rest.foldl minStep acc).t ≤ acc.t
      ∧ ∀ j ∈ rest, (rest.foldl minStep acc).t ≤ j.t := by
  induction rest with
  | nil => intro acc; simp
  | cons j rest ih =>
    intro acc
    simp only [List.foldl_cons]
    obtain ⟨hmem, hacc, hall⟩ := ih (minStep acc j)
    refine ⟨?_, ?_, ?_⟩
    · rcases hmem with h | h
      · rcases minStep_cases acc j with h2 | h2
        · exact Or.inl (h.trans h2)
        · exact Or.inr (by rw [h, h2]; exact List.mem_cons_self _ _)
      · exact Or.inr (List.mem_cons_of_mem _ h)
    · exact hacc.trans (minStep_le_left acc j)
    · intro k hk
      rcases List.mem_cons.mp hk with h | h
      · rw [h]; exact hacc.trans (minStep_le_right acc j)
      · exact hall k h

theorem minByT_none_iff (l : List Intersection) : minByT l = none ↔ l = [] := by
  cases l <;> simp [minByT, minStep]

theorem minByT_spec (l : List Intersection) (i : Intersection)
    (h : minByT l = some i) : i ∈ l ∧ ∀ j ∈ l, i.t ≤ j.t := by
  cases l with
  | nil => simp [minByT] at h
  | cons a rest =>
    simp only [minByT, Option.some.injEq] at h
    obtain ⟨hmem, hacc, hall⟩ := foldlMin_spec rest a
    rw [h] at hmem hacc hall
    refine ⟨?_, ?_⟩
    · rcases hmem with h2 | h2
      · rw [h2]; exact List.mem_cons_self _ _
      · exact List.mem_cons_of_mem _ h2
    · intro j hj
      rcases List.mem_cons.mp hj with h2 | h2
      · rw [h2]; exact hacc
      · exact hall j h2

theorem minByT_perm (l l2 : List Intersection) (h : l.Perm l2) :
    Option.map Intersection.t (minByT l) = Option.map Intersection.t (minByT l2) := by
  rcases hl : minByT l with _ | i <;> rcases hl2 : minByT l2 with _ | i2
  · rfl
  · rw [minByT_none_iff] at hl
    subst hl
    rw [(List.perm_nil.mp h.symm)] at hl2
    simp [minByT] at hl2
  · rw [minByT_none_iff] at hl2
    subst hl2
    rw [(List.perm_nil.mp h)] at hl
    simp [minByT] at hl
  · obtain ⟨hm, hle⟩ := minByT_spec l i hl
    obtain ⟨hm2, hle2⟩ := minByT_spec l2 i2 hl2
    simp only [Option.map_some']
    exact congrArg some
      (le_antisymm (hle i2 (h.mem_iff.mpr hm2)) (hle2 i (h.mem_iff.mp hm)))

/-- C1: `hit` returns the minimum-`t` entry among those with `t ≥ 0`,
returns no hit when the collection is empty or all-negative, the `t`-value
of the hit (the notion of equality the source's `PartialEq` uses) is
independent of insertion order, and the three concrete scenarios come out
as stated: t-values {5,7,-3,2} give hit t = 2, all-negative gives none, and
{1,2} inserted in reverse order gives t = 1. -/
theorem hit_selection_correct :
    (∀ xs : Intersections,
        (xs.hit = none ↔ ∀ i ∈ xs.intersections, i.t < 0)
      ∧ (∀ i, xs.hit = some i →
          i ∈ xs.intersections ∧ 0 ≤ i.t ∧
            ∀ j ∈ xs.intersections, 0 ≤ j.t → i.t ≤ j.t))
    ∧ (∀ xs ys : Intersections, xs.intersections.Perm ys.intersections →
        Option.map Intersection.t xs.hit = Option.map Intersection.t ys.hit)
    ∧ Option.map Intersection.t
        (Intersections.hit ⟨[⟨5, Sphere.new⟩, ⟨7, Sphere.new⟩,
          ⟨-3, Sphere.new⟩, ⟨2, Sphere.new⟩]⟩) = some 2
    ∧ Intersections.hit ⟨[⟨-1, Sphere.new⟩, ⟨-2, Sphere.new⟩]⟩ = none
    ∧ Option.map Intersection.t
        (Intersections.hit ⟨[⟨2, Sphere.new⟩, ⟨1, Sphere.new⟩]⟩) = some 1 := by
  refine ⟨?_, ?_, ?_, ?_, ?_⟩
  · intro xs
    constructor
    · unfold Intersections.hit
      rw [minByT_none_iff, List.filter_eq_nil_iff]
      simp [not_le]
    · intro i h
      unfold Intersections.hit at h
      obtain ⟨hm, hle⟩ := minByT_spec _ _ h
      rw [List.mem_filter] at hm
      refine ⟨hm.1, by simpa using hm.2, ?_⟩
      intro j hj hj0
      exact hle j (List.mem_filter.mpr ⟨hj, by simpa using hj0⟩)
  · intro xs ys h
    unfold Intersections.hit
    exact minByT_perm _ _ (h.filter _)
  · norm_num [Intersections.hit, minByT, minStep, List.filter]
  · norm_num [Intersections.hit, minByT, minStep, List.filter]
  · norm_num [Intersections.hit, minByT, minStep, List.filter]

/-- Witness for C1: the characterisation applied to the concrete reverse-
order collection {2, 1}, whose hit is the entry with `t = 1`. -/
theorem hit_selection_correct_witness :
    (⟨1, Sphere.new⟩ : Intersection) ∈
        ([⟨2, Sphere.new⟩, ⟨1, Sphere.new⟩] : List Intersection)
      ∧ (0 : ℚ) ≤ (1 : ℚ) := by
  have h := (hit_selection_correct.1 ⟨[⟨2, Sphere.new⟩, ⟨1, Sphere.new⟩]⟩).2
    ⟨1, Sphere.new⟩ (by norm_num [Intersections.hit, minByT, minStep, List.filter])
  exact ⟨h.1, h.2.1⟩

/-! ### Sphere intersection (`Sphere::intersect`) -/

/-- C2: with `a = d·d > 0`, sphere intersection returns the empty collection
when the discriminant `b² − 4ac` is negative and otherwise exactly the two
roots `(−b ∓ √disc)/(2a)` in order `t1 ≤ t2`, with no culling of tangent or
negative roots; the five unit-sphere scenarios produce {4,6}, {5,5}, {},
{-1,1} and {-6,-4}. -/
theorem sphere_intersect_correct : ∀ sqrtf : ℚ → ℚ,
    (∀ (s : Sphere) (r : Ray) (m : Matrix),
      Matrix.inverse s.transform = some m →
      0 < sphereQuadA m r →
      (sphereDisc m r < 0 → s.intersect sqrtf r = .ok ⟨[]⟩)
      ∧ (0 ≤ sphereDisc m r → 0 ≤ sqrtf (sphereDisc m r) →
          sqrtf (sphereDisc m r) * sqrtf (sphereDisc m r) = sphereDisc m r →
          s.intersect sqrtf r =
            .ok ⟨[⟨(-(sphereQuadB m r) - sqrtf (sphereDisc m r)) / (2 * sphereQuadA m r), s⟩,
                  ⟨(-(sphereQuadB m r) + sqrtf (sphereDisc m r)) / (2 * sphereQuadA m r), s⟩]⟩
          ∧ (-(sphereQuadB m r) - sqrtf (sphereDisc m r)) / (2 * sphereQuadA m r)
              ≤ (-(sphereQuadB m r) + sqrtf (sphereDisc m r)) / (2 * sphereQuadA m r)))
    ∧ (sqrtf 4 = 2 → sqrtf 0 = 0 →
        Sphere.new.intersect sqrtf ⟨V4.point 0 0 (-5), V4.vector 0 0 1⟩ =
          .ok ⟨[⟨4, Sphere.new⟩, ⟨6, Sphere.new⟩]⟩
        ∧ Sphere.new.intersect sqrtf ⟨V4.point 0 1 (-5), V4.vector 0 0 1⟩ =
          .ok ⟨[⟨5, Sphere.new⟩, ⟨5, Sphere.new⟩]⟩
        ∧ Sphere.new.intersect sqrtf ⟨V4.point 0 2 (-5), V4.vector 0 0 1⟩ = .ok ⟨[]⟩
        ∧ Sphere.new.intersect sqrtf ⟨V4.point 0 0 0, V4.vector 0 0 1⟩ =
          .ok ⟨[⟨-1, Sphere.new⟩, ⟨1, Sphere.new⟩]⟩
        ∧ Sphere.new.intersect sqrtf ⟨V4.point 0 0 5, V4.vector 0 0 1⟩ =
          .ok ⟨[⟨-6, Sphere.new⟩, ⟨-4, Sphere.new⟩]⟩) := by
  intro sqrtf
  constructor
  · intro s r m hm ha
    have hint : s.intersect sqrtf r =
        (if sphereDisc m r < 0 then .ok ⟨[]⟩
         else
           .ok ⟨[⟨(-(sphereQuadB m r) - sqrtf (sphereDisc m r)) / (2 * sphereQuadA m r), s⟩,
                 ⟨(-(sphereQuadB m r) + sqrtf (sphereDisc m r)) / (2 * sphereQuadA m r), s⟩]⟩) := by
      unfold Sphere.intersect
      rw [hm]
      rfl
    constructor
    · intro hneg
      rw [hint, if_pos hneg]
    · intro h0 hs _hsq
      have h2a : 0 < 2 * sphereQuadA m r := by linarith
      refine ⟨?_, ?_⟩
      · rw [hint, if_neg (not_lt.mpr h0)]
      · exact (div_le_div_iff_of_pos_right h2a).mpr (by linarith)
  · intro h4 h0
    refine ⟨?_, ?_, ?_, ?_, ?_⟩ <;>
    · unfold Sphere.intersect
      rw [show Sphere.new.transform = IDENTITY from rfl, Matrix.inverse_IDENTITY]
      norm_num [Ray.transformed, Matrix.mulVec, V4.point, V4.vector, V4.sub, V4.dot,
        IDENTITY, Sphere.new, h4, h0]

/-- Witness for C2: the first unit-sphere scenario evaluated with a concrete
square-root model. -/
theorem sphere_intersect_correct_witness :
    Sphere.new.intersect sqrtExample ⟨V4.point 0 0 (-5), V4.vector 0 0 1⟩ =
      .ok ⟨[⟨4, Sphere.new⟩, ⟨6, Sphere.new⟩]⟩ :=
  ((sphere_intersect_correct sqrtExample).2 (by norm_num [sqrtExample])
    (by norm_num [sqrtExample])).1

/-! ### Camera: bounds check, set_transform, construction constants -/

theorem Matrix.inverse_zeroMatrix : Matrix.inverse zeroMatrix = none := by
  unfold Matrix.inverse
  norm_num [Matrix.det, Matrix.det3, zeroMatrix]

/-- C3 (amended): `ray_for_pixel(x, y)` fails with `PixelOutOfBounds`
exactly when `x > hsize` or `y > vsize` — the source's bounds check is
strict, so the out-of-range coordinates `x = hsize` / `y = vsize` are
accepted. -/
theorem ray_for_pixel_bounds :
    ∀ (sqrtf : ℚ → ℚ) (c : Camera) (x y : ℕ),
      c.ray_for_pixel sqrtf x y = .error .pixelOutOfBounds
        ↔ (x > c.hsize ∨ y > c.vsize) := by
  intro sqrtf c x y
  unfold Camera.ray_for_pixel
  by_cases h : x > c.hsize ∨ y > c.vsize
  · simp [h]
  · rcases hinv : c.inverse with _ | inv <;> simp [h, hinv]

/-- Counterexample to C3 as stated: on a 2×2 camera the pixel coordinate
`x = hsize = 2` (which is `≥ hsize`, outside the resolution) does not
produce the `PixelOutOfBounds` error. -/
theorem ray_for_pixel_bounds_counterexample :
    2 ≥ (Camera.new 2 2 1).hsize
    ∧ (Camera.new 2 2 1).ray_for_pixel (fun q => q) 2 0
        ≠ .error .pixelOutOfBounds := by
  constructor
  · norm_num [Camera.new]
  · norm_num [Camera.ray_for_pixel, Camera.new]
    exact fun hcontra => Except.noConfusion hcontra

/-- Witness for C3: a genuinely too-large coordinate (x = 3 > hsize = 2) is
rejected with `PixelOutOfBounds`. -/
theorem ray_for_pixel_bounds_witness :
    (Camera.new 2 2 1).ray_for_pixel (fun q => q) 3 0 = .error .pixelOutOfBounds :=
  (ray_for_pixel_bounds (fun q => q) (Camera.new 2 2 1) 3 0).mpr
    (Or.inl (by norm_num [Camera.new]))

/-- C4: `Camera::set_transform` is NOT atomic — the source assigns
`self.transform = transform` before attempting the inversion, so on a
non-invertible input the call fails with `NoInverse` but leaves the camera
with the new (singular) transform and the stale previous inverse; in
particular a fresh camera given the zero matrix ends with
`transform = zero ≠ identity` while `inverse` is still `some identity`. -/
theorem camera_set_transform_not_atomic :
    (∀ (c : Camera) (t : Matrix), Matrix.inverse t = none →
      (c.set_transform t).1 = .error .noInverse
      ∧ (c.set_transform t).2.transform = t
      ∧ (c.set_transform t).2.inverse = c.inverse)
    ∧ ((Camera.new 2 2 1).set_transform zeroMatrix).1 = .error .noInverse
    ∧ ((Camera.new 2 2 1).set_transform zeroMatrix).2.transform = zeroMatrix
    ∧ ((Camera.new 2 2 1).set_transform zeroMatrix).2.transform
        ≠ (Camera.new 2 2 1).transform
    ∧ ((Camera.new 2 2 1).set_transform zeroMatrix).2.inverse = some IDENTITY := by
  have hgen : ∀ (c : Camera) (t : Matrix), Matrix.inverse t = none →
      (c.set_transform t).1 = .error .noInverse
      ∧ (c.set_transform t).2.transform = t
      ∧ (c.set_transform t).2.inverse = c.inverse := by
    intro c t h
    simp [Camera.set_transform, h]
  refine ⟨hgen, ?_, ?_, ?_, ?_⟩
  · exact (hgen _ _ Matrix.inverse_zeroMatrix).1
  · exact (hgen _ _ Matrix.inverse_zeroMatrix).2.1
  · rw [(hgen _ _ Matrix.inverse_zeroMatrix).2.1]
    norm_num [Camera.new, zeroMatrix, IDENTITY, Matrix.mk.injEq]
  · exact (hgen _ _ Matrix.inverse_zeroMatrix).2.2

/-- Witness for C4: the failing call on a fresh 1×1 camera, with the
post-state showing the mutated transform and untouched inverse. -/
theorem camera_set_transform_not_atomic_witness :
    ((Camera.new 1 1 1).set_transform zeroMatrix).2.transform = zeroMatrix
    ∧ ((Camera.new 1 1 1).set_transform zeroMatrix).2.inverse
        = (Camera.new 1 1 1).inverse := by
  have h := camera_set_transform_not_atomic.1 (Camera.new 1 1 1) zeroMatrix
    Matrix.inverse_zeroMatrix
  exact ⟨h.2.1, h.2.2⟩

/-- C6: the camera's derived constants follow the aspect-ratio branching
(`half_width = half_view`, `half_height = half_view/aspect` when
`aspect ≥ 1`, mirrored otherwise) and `pixel_size = 2·half_width/hsize`;
with `half_view = tan(π/4) = 1`, both the 200×125 and the 125×200 cameras
get `pixel_size ≈ 0.01`. -/
theorem camera_new_constants :
    (∀ (hsize vsize : ℕ) (half_view : ℚ), 0 < hsize → 0 < vsize →
      ((1 ≤ (hsize : ℚ) / (vsize : ℚ) →
          (Camera.new hsize vsize half_view).half_width = half_view
          ∧ (Camera.new hsize vsize half_view).half_height
              = half_view / ((hsize : ℚ) / (vsize : ℚ)))
        ∧ ((hsize : ℚ) / (vsize : ℚ) < 1 →
          (Camera.new hsize vsize half_view).half_width
              = half_view * ((hsize : ℚ) / (vsize : ℚ))
          ∧ (Camera.new hsize vsize half_view).half_height = half_view)
        ∧ (Camera.new hsize vsize half_view).pixel_size
            = (2 * (Camera.new hsize vsize half_view).half_width) / (hsize : ℚ)))
    ∧ |(Camera.new 200 125 1).pixel_size - 1/100| < EQUALITY_EPSILON
    ∧ |(Camera.new 125 200 1).pixel_size - 1/100| < EQUALITY_EPSILON := by
  refine ⟨?_, ?_, ?_⟩
  · intro hsize vsize half_view _h1 _h2
    refine ⟨?_, ?_, ?_⟩
    · intro hasp
      constructor <;> simp [Camera.new, if_pos hasp]
    · intro hasp
      constructor <;> simp [Camera.new, if_neg (not_le.mpr hasp)]
    · simp [Camera.new]
      ring_nf
  · norm_num [Camera.new, EQUALITY_EPSILON]
  · norm_num [Camera.new, EQUALITY_EPSILON]

/-- Witness for C6: the pixel-size identity on a concrete 2×2 camera. -/
theorem camera_new_constants_witness :
    (Camera.new 2 2 1).pixel_size
      = (2 * (Camera.new 2 2 1).half_width) / ((2 : ℕ) : ℚ) :=
  (camera_new_constants.1 2 2 1 (by norm_num) (by norm_num)).2.2

/-! ### Shape: cached-inverse invariant -/

theorem shape_step_inv {μ α : Type} (s : Shape μ α) (t : Matrix)
    (h : Matrix.inverse s.transform = some s.inverse) :
    Matrix.inverse (s.step t).transform = some (s.step t).inverse := by
  unfold Shape.step Shape.set_transform
  rcases hinv : Matrix.inverse t with _ | m
  · simpa using h
  · simpa using hinv

theorem shape_applyAll_inv {μ α : Type} (ts : List Matrix) :
    ∀ s : Shape μ α, Matrix.inverse s.transform = some s.inverse →
      Matrix.inverse (s.applyAll ts).transform = some (s.applyAll ts).inverse := by
  induction ts with
  | nil => intro s h; simpa [Shape.applyAll] using h
  | cons t ts ih =>
    intro s h
    have h2 := shape_step_inv s t h
    simpa [Shape.applyAll] using ih (s.step t) h2

/-- C7: a `Shape`'s cached `inverse` field is the matrix inverse of its
`transform` field after construction and after any sequence of
`set_transform` calls, successful or failed; `set_transform` fails with
`NoInverse` on a non-invertible matrix leaving both fields unchanged, and
on success updates both together. -/
theorem shape_cached_inverse_invariant :
    (∀ (μ α : Type) (dm : μ) (md : α) (ts : List Matrix),
      Matrix.inverse ((Shape.new dm md).applyAll ts).transform
        = some ((Shape.new dm md).applyAll ts).inverse)
    ∧ (∀ (μ α : Type) (s : Shape μ α) (t : Matrix),
        Matrix.inverse t = none →
        s.set_transform t = .error .noInverse ∧ s.step t = s)
    ∧ (∀ (μ α : Type) (s : Shape μ α) (t : Matrix) (s2 : Shape μ α),
        s.set_transform t = .ok s2 →
        s2.transform = t ∧ Matrix.inverse t = some s2.inverse) := by
  refine ⟨?_, ?_, ?_⟩
  · intro μ α dm md ts
    exact shape_applyAll_inv ts (Shape.new dm md)
      (by simp [Shape.new, Matrix.inverse_IDENTITY])
  · intro μ α s t h
    constructor
    · unfold Shape.set_transform
      rw [h]
    · unfold Shape.step Shape.set_transform
      rw [h]
  · intro μ α s t s2 h
    unfold Shape.set_transform at h
    rcases hinv : Matrix.inverse t with _ | m <;> rw [hinv] at h
    · exact absurd h (by simp)
    · simp only [Except.ok.injEq] at h
      subst h
      exact ⟨rfl, by simp [hinv]⟩

/-- Witness for C7: the invariant after a failed then a successful
`set_transform` on a freshly constructed shape. -/
theorem shape_cached_inverse_invariant_witness :
    Matrix.inverse (((Shape.new () ()).applyAll [zeroMatrix, translationM]).transform)
      = some (((Shape.new () ()).applyAll [zeroMatrix, translationM]).inverse) :=
  shape_cached_inverse_invariant.1 Unit Unit () () [zeroMatrix, translationM]

/-! ### Transform round-trip and Color equality -/

/-- C8: for every invertible transform `T` (with inverse `B`) and every
point or vector `p`, applying `T` then `B` returns `p` within the ε = 1e-5
tolerance (in the exact rational model the round-trip is exact, so the
tolerance bound holds a fortiori). -/
theorem transform_inverse_roundtrip :
    ∀ (T B : Matrix) (p : V4), Matrix.inverse T = some B →
      approxV (B.mulVec (T.mulVec p)) p := by
  intro T B p h
  have hBT := (Matrix.inverse_spec T B h).1
  have heq : B.mulVec (T.mulVec p) = p := by
    rw [← Matrix.mul_mulVec, hBT, Matrix.IDENTITY_mulVec]
  rw [heq]
  unfold approxV
  norm_num [EQUALITY_EPSILON]

/-- Witness for C8: a concrete translation and its inverse round-trip the
point (1, 2, 3). -/
theorem transform_inverse_roundtrip_witness :
    Matrix.inverse translationM = some translationMInv
    ∧ approxV (translationMInv.mulVec (translationM.mulVec (V4.point 1 2 3)))
        (V4.point 1 2 3) := by
  have hinv : Matrix.inverse translationM = some translationMInv := by
    unfold Matrix.inverse
    norm_num [Matrix.det, Matrix.det3, Matrix.adjugate, Matrix.smulM,
      translationM, translationMInv]
  exact ⟨hinv, transform_inverse_roundtrip translationM translationMInv
    (V4.point 1 2 3) hinv⟩

/-- C9: `Color`'s equality compares signed componentwise differences
against ε without absolute value — `c1 == c2` iff each component of `c1` is
below the corresponding component of `c2` plus ε — and is therefore not
symmetric: (0,0,0) == (1,1,1) holds while (1,1,1) == (0,0,0) does not. -/
theorem color_eq_not_symmetric :
    (∀ c1 c2 : Color, Color.eq c1 c2 = true ↔
      (c1.red < c2.red + EQUALITY_EPSILON ∧ c1.green < c2.green + EQUALITY_EPSILON
        ∧ c1.blue < c2.blue + EQUALITY_EPSILON))
    ∧ Color.eq ⟨0, 0, 0⟩ ⟨1, 1, 1⟩ = true
    ∧ Color.eq ⟨1, 1, 1⟩ ⟨0, 0, 0⟩ = false := by
  refine ⟨?_, ?_, ?_⟩
  · intro c1 c2
    simp [Color.eq, Bool.and_eq_true, decide_eq_true_eq, sub_lt_iff_lt_add', and_assoc]
  · norm_num [Color.eq, EQUALITY_EPSILON]
  · norm_num [Color.eq, EQUALITY_EPSILON]

/-- Witness for C9: the componentwise characterisation applied to equal
colors. -/
theorem color_eq_not_symmetric_witness :
    Color.eq ⟨0, 0, 0⟩ ⟨0, 0, 0⟩ = true :=
  (color_eq_not_symmetric.1 ⟨0, 0, 0⟩ ⟨0, 0, 0⟩).mpr
    (by norm_num [EQUALITY_EPSILON])

/-- C10: the standalone `Sphere::set_transform` accepts any matrix without
validation (the stored transform is always the given one), and the
inversion failure surfaces only when `intersect` runs with a singular
stored transform, returning `IntersectingSphereError::NoInverse`. -/
theorem sphere_set_transform_deferred :
    (∀ (s : Sphere) (t : Matrix), (s.set_transform t).transform = t)
    ∧ (∀ (sqrtf : ℚ → ℚ) (s : Sphere) (r : Ray),
        Matrix.inverse s.transform = none →
        s.intersect sqrtf r = .error .noInverse) := by
  constructor
  · intro s t; rfl
  · intro sqrtf s r h
    unfold Sphere.intersect
    rw [h]

/-- Witness for C10: storing the singular zero matrix succeeds, and the
subsequent `intersect` reports `NoInverse`. -/
theorem sphere_set_transform_deferred_witness :
    (Sphere.new.set_transform zeroMatrix).transform = zeroMatrix
    ∧ (Sphere.new.set_transform zeroMatrix).intersect sqrtExample
        ⟨V4.point 0 0 (-5), V4.vector 0 0 1⟩ = .error .noInverse := by
  refine ⟨sphere_set_transform_deferred.1 Sphere.new zeroMatrix, ?_⟩
  refine sphere_set_transform_deferred.2 sqrtExample _ _ ?_
  show Matrix.inverse zeroMatrix = none
  exact Matrix.inverse_zeroMatrix

/-! ### Canvas and render-loop lemmas -/

theorem Canvas.new_wf (w h : ℕ) : (Canvas.new w h).wf := by
  unfold Canvas.new Canvas.wf
  constructor
  · simp
  · intro row hrow
    rw [List.eq_of_mem_replicate hrow]
    simp

theorem Canvas.pixel_at_getPix (cv : Canvas) (x y : ℕ)
    (hx : x < cv.width) (hy : y < cv.height) :
    cv.pixel_at x y = .ok (cv.getPix x y) := by
  unfold Canvas.pixel_at Canvas.getPix
  rw [if_pos ⟨hx, hy⟩]

theorem writeStep_eq (cv : Canvas) (x y : ℕ) (col : Color) :
    writeStep cv x y col =
      if x < cv.width ∧ y < cv.height
      then ⟨cv.width, cv.height, cv.rows.set y ((cv.rows.getD y []).set x col)⟩
      else cv := by
  unfold writeStep Canvas.write_pixel
  by_cases hcond : x < cv.width ∧ y < cv.height <;> simp [hcond]

theorem writeStep_width (cv : Canvas) (x y : ℕ) (col : Color) :
    (writeStep cv x y col).width = cv.width ∧ (writeStep cv x y col).height = cv.height := by
  rw [writeStep_eq]
  by_cases hcond : x < cv.width ∧ y < cv.height <;> simp [hcond]

theorem writeStep_wf (cv : Canvas) (x y : ℕ) (col : Color) (h : cv.wf) :
    (writeStep cv x y col).wf := by
  rw [writeStep_eq]
  by_cases hcond : x < cv.width ∧ y < cv.height
  · rw [if_pos hcond]
    unfold Canvas.wf at h ⊢
    simp only
    refine ⟨by simpa using h.1, ?_⟩
    intro row hrow
    rcases List.mem_or_eq_of_mem_set hrow with h2 | h2
    · exact h.2 row h2
    · subst h2
      rw [List.length_set]
      have hylt : y < cv.rows.length := by rw [h.1]; exact hcond.2
      have hrget : cv.rows.getD y [] = cv.rows[y] := by
        rw [List.getD_eq_getElem?_getD, List.getElem?_eq_getElem hylt]
        rfl
      rw [hrget]
      exact h.2 _ (List.getElem_mem hylt)
  · rw [if_neg hcond]
    exact h

theorem getPix_writeStep_same (cv : Canvas) (x y : ℕ) (col : Color)
    (hwf : cv.wf) (hx : x < cv.width) (hy : y < cv.height) :
    (writeStep cv x y col).getPix x y = col := by
  rw [writeStep_eq, if_pos ⟨hx, hy⟩]
  unfold Canvas.getPix
  simp only
  have hylt : y < cv.rows.length := by rw [hwf.1]; exact hy
  have hrow : cv.rows.getD y [] = cv.rows[y] := by
    rw [List.getD_eq_getElem?_getD, List.getElem?_eq_getElem hylt]
    rfl
  have h1 : (cv.rows.set y ((cv.rows.getD y []).set x col)).getD y []
      = (cv.rows.getD y []).set x col := by
    rw [List.getD_eq_getElem?_getD, List.getElem?_set_self (by simpa using hylt)]
    rfl
  rw [h1]
  have hxlt : x < (cv.rows.getD y []).length := by
    rw [hrow]
    rw [hwf.2 _ (List.getElem_mem hylt)]
    exact hx
  rw [List.getD_eq_getElem?_getD, List.getElem?_set_self (by simpa using hxlt)]
  rfl

theorem getPix_writeStep_other (cv : Canvas) (x y a b : ℕ) (col : Color)
    (h : ¬(x = a ∧ y = b)) :
    (writeStep cv x y col).getPix a b = cv.getPix a b := by
  rw [writeStep_eq]
  by_cases hcond : x < cv.width ∧ y < cv.height
  · rw [if_pos hcond]
    unfold Canvas.getPix
    simp only
    by_cases hb : y = b
    · subst hb
      have hx : x ≠ a := fun hxa => h ⟨hxa, rfl⟩
      rcases hyl : cv.rows[y]? with _ | row
      · have h2 : (cv.rows.set y ((cv.rows.getD y []).set x col)).getD y [] = [] := by
          rw [List.getD_eq_getElem?_getD, List.getElem?_set_self', hyl]
          rfl
        have h3 : cv.rows.getD y [] = [] := by
          rw [List.getD_eq_getElem?_getD, hyl]
          rfl
        rw [h2, h3]
      · have hrowD : cv.rows.getD y [] = row := by
          rw [List.getD_eq_getElem?_getD, hyl]
          rfl
        have h2 : (cv.rows.set y ((cv.rows.getD y []).set x col)).getD y []
            = row.set x col := by
          rw [List.getD_eq_getElem?_getD, List.getElem?_set_self', hyl, hrowD]
          rfl
        rw [h2, hrowD]
        rw [List.getD_eq_getElem?_getD, List.getElem?_set_ne hx,
          ← List.getD_eq_getElem?_getD]
    · have h2 : (cv.rows.set y ((cv.rows.getD y []).set x col)).getD b []
          = cv.rows.getD b [] := by
        rw [List.getD_eq_getElem?_getD, List.getElem?_set_ne hb,
          ← List.getD_eq_getElem?_getD]
      rw [h2]
  · rw [if_neg hcond]

theorem renderRow_ok_of {ω : Type} (sqrtf : ℚ → ℚ) (cf : Ray → Except ω Color)
    (c : Camera) (y : ℕ) :
    ∀ (k x : ℕ) (cv : Canvas),
      (∀ j, j < k → ∃ col, c.pixelResult sqrtf cf (x + j) y = .ok col) →
      ∃ cv2, Camera.renderRow sqrtf cf c y x k cv = .ok cv2 := by
  intro k
  induction k with
  | zero => intro x cv _; exact ⟨cv, rfl⟩
  | succ k ih =>
    intro x cv h
    obtain ⟨col, hcol⟩ := h 0 (Nat.succ_pos k)
    rw [Nat.add_zero] at hcol
    have hrest : ∀ j, j < k → ∃ col2, c.pixelResult sqrtf cf (x + 1 + j) y = .ok col2 := by
      intro j hj
      have := h (j + 1) (Nat.succ_lt_succ hj)
      rwa [show x + (j + 1) = x + 1 + j by omega] at this
    obtain ⟨cv2, hcv2⟩ := ih (x + 1) (writeStep cv x y col) hrest
    refine ⟨cv2, ?_⟩
    show Camera.renderRow sqrtf cf c y x (k + 1) cv = .ok cv2
    unfold Camera.renderRow
    rw [hcol]
    exact hcv2

theorem renderRow_ok_spec {ω : Type} (sqrtf : ℚ → ℚ) (cf : Ray → Except ω Color)
    (c : Camera) (y : ℕ) :
    ∀ (k x : ℕ) (cv cv2 : Canvas),
      Camera.renderRow sqrtf cf c y x k cv = .ok cv2 →
      (cv2.width = cv.width ∧ cv2.height = cv.height ∧ (cv.wf → cv2.wf))
      ∧ (∀ a, x ≤ a → a < x + k → a < cv.width → y < cv.height → cv.wf →
          c.pixelResult sqrtf cf a y = .ok (cv2.getPix a y))
      ∧ (∀ a b, ¬(b = y ∧ x ≤ a ∧ a < x + k) → cv2.getPix a b = cv.getPix a b) := by
  intro k
  induction k with
  | zero =>
    intro x cv cv2 h
    have hcv : cv2 = cv := by
      have : Except.ok (ε := RenderError) cv = .ok cv2 := h
      simpa using this.symm
    subst hcv
    refine ⟨⟨rfl, rfl, fun hwf => hwf⟩, ?_, ?_⟩
    · intro a ha1 ha2 _ _ _
      omega
    · intro a b _
      rfl
  | succ k ih =>
    intro x cv cv2 h
    have h2 : Camera.renderRow sqrtf cf c y x (k + 1) cv =
        (match c.pixelResult sqrtf cf x y with
         | .error e => .error e
         | .ok col =>
            Camera.renderRow sqrtf cf c y (x + 1) k (writeStep cv x y col)) := rfl
    rw [h2] at h
    rcases hpix : c.pixelResult sqrtf cf x y with e | col <;> rw [hpix] at h
    · exact absurd h (by simp)
    · obtain ⟨⟨hw, hh, hwf⟩, hcover, hrest⟩ := ih (x + 1) (writeStep cv x y col) cv2 h
      have hwsw := writeStep_width cv x y col
      refine ⟨⟨hw.trans hwsw.1, hh.trans hwsw.2, ?_⟩, ?_, ?_⟩
      · intro hwf0
        exact hwf (writeStep_wf cv x y col hwf0)
      · intro a ha1 ha2 haw hyh hwf0
        by_cases hax : a = x
        · subst hax
          rw [hpix]
          have hgp : cv2.getPix a y = (writeStep cv a y col).getPix a y :=
            hrest a y (by omega)
          rw [hgp, getPix_writeStep_same cv a y col hwf0 haw hyh]
        · have ha1' : x + 1 ≤ a := by omega
          exact hcover a ha1' (by omega) (by rw [hwsw.1]; exact haw)
            (by rw [hwsw.2]; exact hyh) (writeStep_wf cv x y col hwf0)
      · intro a b hnot
        have hnot2 : ¬(b = y ∧ x + 1 ≤ a ∧ a < x + 1 + k) := by
          intro hcontra
          exact hnot ⟨hcontra.1, by omega, by omega⟩
        rw [hrest a b hnot2]
        refine getPix_writeStep_other cv x y a b col ?_
        intro hcontra
        exact hnot ⟨hcontra.2.symm, by omega, by omega⟩

theorem renderRow_error {ω : Type} (sqrtf : ℚ → ℚ) (cf : Ray → Except ω Color)
    (c : Camera) (y : ℕ) :
    ∀ (k x : ℕ) (cv : Canvas) (x0 : ℕ) (e : RenderError),
      x ≤ x0 → x0 < x + k →
      c.pixelResult sqrtf cf x0 y = .error e →
      (∀ j, x ≤ j → j < x0 → ∃ col, c.pixelResult sqrtf cf j y = .ok col) →
      Camera.renderRow sqrtf cf c y x k cv = .error e := by
  intro k
  induction k with
  | zero => intro x cv x0 e h1 h2; omega
  | succ k ih =>
    intro x cv x0 e h1 h2 herr hok
    have hstep : Camera.renderRow sqrtf cf c y x (k + 1) cv =
        (match c.pixelResult sqrtf cf x y with
         | .error e2 => .error e2
         | .ok col =>
            Camera.renderRow sqrtf cf c y (x + 1) k (writeStep cv x y col)) := rfl
    rw [hstep]
    by_cases hx : x = x0
    · subst hx
      rw [herr]
    · obtain ⟨col, hcol⟩ := hok x (le_refl x) (by omega)
      rw [hcol]
      exact ih (x + 1) (writeStep cv x y col) x0 e (by omega) (by omega) herr
        (fun j hj1 hj2 => hok j (by omega) hj2)

theorem renderRows_ok_spec {ω : Type} (sqrtf : ℚ → ℚ) (cf : Ray → Except ω Color)
    (c : Camera) :
    ∀ (k y0 : ℕ) (cv cv2 : Canvas),
      Camera.renderRows sqrtf cf c y0 k cv = .ok cv2 →
      (cv2.width = cv.width ∧ cv2.height = cv.height ∧ (cv.wf → cv2.wf))
      ∧ (∀ a b, y0 ≤ b → b < y0 + k → a < c.hsize → a < cv.width → b < cv.height →
          cv.wf → c.pixelResult sqrtf cf a b = .ok (cv2.getPix a b))
      ∧ (∀ a b, ¬(y0 ≤ b ∧ b < y0 + k) → cv2.getPix a b = cv.getPix a b) := by
  intro k
  induction k with
  | zero =>
    intro y0 cv cv2 h
    have hcv : cv2 = cv := by
      have : Except.ok (ε := RenderError) cv = .ok cv2 := h
      simpa using this.symm
    subst hcv
    refine ⟨⟨rfl, rfl, fun hwf => hwf⟩, ?_, ?_⟩
    · intro a b hb1 hb2
      omega
    · intro a b _
      rfl
  | succ k ih =>
    intro y0 cv cv2 h
    have hstep : Camera.renderRows sqrtf cf c y0 (k + 1) cv =
        (match Camera.renderRow sqrtf cf c y0 0 c.hsize cv with
         | .error e => .error e
         | .ok cvr => Camera.renderRows sqrtf cf c (y0 + 1) k cvr) := rfl
    rw [hstep] at h
    rcases hrow : Camera.renderRow sqrtf cf c y0 0 c.hsize cv with e | cvr <;>
      rw [hrow] at h
    · exact absurd h (by simp)
    · obtain ⟨⟨hw1, hh1, hwf1⟩, hcov1, hres1⟩ :=
        renderRow_ok_spec sqrtf cf c y0 c.hsize 0 cv cvr hrow
      obtain ⟨⟨hw2, hh2, hwf2⟩, hcov2, hres2⟩ := ih (y0 + 1) cvr cv2 h
      refine ⟨⟨hw2.trans hw1, hh2.trans hh1, fun hwf0 => hwf2 (hwf1 hwf0)⟩, ?_, ?_⟩
      · intro a b hb1 hb2 hah haw hbh hwf0
        by_cases hby : b = y0
        · subst hby
          have hpix := hcov1 a (Nat.zero_le a) (by omega) haw hbh hwf0
          have hgp : cv2.getPix a b = cvr.getPix a b :=
            hres2 a b (by omega)
          rw [hgp]
          exact hpix
        · have hb1' : y0 + 1 ≤ b := by omega
          exact hcov2 a b hb1' (by omega) hah (by rw [hw1]; exact haw)
            (by rw [hh1]; exact hbh) (hwf1 hwf0)
      · intro a b hnot
        have hnot2 : ¬(y0 + 1 ≤ b ∧ b < y0 + 1 + k) := by omega
        rw [hres2 a b hnot2]
        exact hres1 a b (by omega)

theorem renderRows_error {ω : Type} (sqrtf : ℚ → ℚ) (cf : Ray → Except ω Color)
    (c : Camera) :
    ∀ (k y0 : ℕ) (cv : Canvas) (x1 y1 : ℕ) (e : RenderError),
      y0 ≤ y1 → y1 < y0 + k → x1 < c.hsize →
      c.pixelResult sqrtf cf x1 y1 = .error e →
      (∀ a b, y0 ≤ b → (b < y1 ∨ (b = y1 ∧ a < x1)) → a < c.hsize →
        ∃ col, c.pixelResult sqrtf cf a b = .ok col) →
      Camera.renderRows sqrtf cf c y0 k cv = .error e := by
  intro k
  induction k with
  | zero => intro y0 cv x1 y1 e h1 h2; omega
  | succ k ih =>
    intro y0 cv x1 y1 e h1 h2 hx1 herr hok
    have hstep : Camera.renderRows sqrtf cf c y0 (k + 1) cv =
        (match Camera.renderRow sqrtf cf c y0 0 c.hsize cv with
         | .error e2 => .error e2
         | .ok cvr => Camera.renderRows sqrtf cf c (y0 + 1) k cvr) := rfl
    rw [hstep]
    by_cases hy : y0 = y1
    · subst hy
      have hrow := renderRow_error sqrtf cf c y0 c.hsize 0 cv x1 e
        (Nat.zero_le x1) (by omega) herr
        (fun j hj1 hj2 => hok j y0 (le_refl y0) (Or.inr ⟨rfl, hj2⟩) (by omega))
      rw [hrow]
    · obtain ⟨cvr, hcvr⟩ := renderRow_ok_of sqrtf cf c y0 c.hsize 0 cv
        (fun j hj => by
          rw [Nat.zero_add]
          exact hok j y0 (le_refl y0) (Or.inl (by omega)) (by omega))
      rw [hcvr]
      exact ih (y0 + 1) cvr x1 y1 e (by omega) (by omega) hx1 herr
        (fun a b hb1 hb2 hah => hok a b (by omega) hb2 hah)

/-- C5: `render` is all-or-nothing — on success every pixel (x, y) of the
returned canvas holds the color the world gives for `ray_for_pixel(x, y)`;
if some pixel fails, the render aborts at the row-major-first failing pixel
and returns its error, tagged `RayForPixel` for a ray-generation failure
and `ColorAt` for a color-resolution failure (and by the `Except` return
type no partial image is ever produced). -/
theorem render_all_or_nothing :
    ∀ (ω : Type) (sqrtf : ℚ → ℚ) (cf : Ray → Except ω Color) (c : Camera),
      (∀ cv : Canvas, Camera.render sqrtf cf c = .ok cv →
        ∀ x y, x < c.hsize → y < c.vsize →
          ∃ col, c.pixelResult sqrtf cf x y = .ok col ∧ cv.pixel_at x y = .ok col)
      ∧ (∀ (x1 y1 : ℕ) (e : RenderError), x1 < c.hsize → y1 < c.vsize →
          c.pixelResult sqrtf cf x1 y1 = .error e →
          (∀ a b, (b < y1 ∨ (b = y1 ∧ a < x1)) → a < c.hsize → b < c.vsize →
            ∃ col, c.pixelResult sqrtf cf a b = .ok col) →
          Camera.render sqrtf cf c = .error e)
      ∧ (∀ (x y : ℕ) (rerr : RayForPixelError),
          c.ray_for_pixel sqrtf x y = .error rerr →
          c.pixelResult sqrtf cf x y = .error .rayForPixel)
      ∧ (∀ (x y : ℕ) (r : Ray) (werr : ω),
          c.ray_for_pixel sqrtf x y = .ok r → cf r = .error werr →
          c.pixelResult sqrtf cf x y = .error .colorAt)
      ∧ (∀ (x y : ℕ) (r : Ray) (col : Color),
          c.ray_for_pixel sqrtf x y = .ok r → cf r = .ok col →
          c.pixelResult sqrtf cf x y = .ok col) := by
  intro ω sqrtf cf c
  refine ⟨?_, ?_, ?_, ?_, ?_⟩
  · intro cv h x y hx hy
    unfold Camera.render at h
    obtain ⟨⟨hw, hh, _⟩, hcov, _⟩ :=
      renderRows_ok_spec sqrtf cf c c.vsize 0 (Canvas.new c.hsize c.vsize) cv h
    have hpix := hcov x y (Nat.zero_le y) (by omega) hx hx hy
      (Canvas.new_wf c.hsize c.vsize)
    refine ⟨cv.getPix x y, hpix, Canvas.pixel_at_getPix cv x y ?_ ?_⟩
    · rw [hw]; exact hx
    · rw [hh]; exact hy
  · intro x1 y1 e hx1 hy1 herr hok
    unfold Camera.render
    exact renderRows_error sqrtf cf c c.vsize 0 (Canvas.new c.hsize c.vsize)
      x1 y1 e (Nat.zero_le y1) (by omega) hx1 herr
      (fun a b hb1 hb2 hah => hok a b hb2 hah (by omega))
  · intro x y rerr h
    unfold Camera.pixelResult
    rw [h]
  · intro x y r werr h1 h2
    unfold Camera.pixelResult
    rw [h1]
    dsimp only
    rw [h2]
  · intro x y r col h1 h2
    unfold Camera.pixelResult
    rw [h1]
    dsimp only
    rw [h2]


/-- Witness for C5: a 1×1 render against a constant-color world produces a
canvas whose single pixel holds that color. -/
theorem render_all_or_nothing_witness :
    ∃ col, Camera.pixelResult (fun q => q) cfConst (Camera.new 1 1 1) 0 0 = .ok col
      ∧ Canvas.pixel_at ⟨1, 1, [[⟨1, 2, 3⟩]]⟩ 0 0 = .ok col := by
  have hrender : Camera.render (fun q => q) cfConst (Camera.new 1 1 1)
      = .ok ⟨1, 1, [[⟨1, 2, 3⟩]]⟩ := by
    norm_num [Camera.render, Camera.renderRows, Camera.renderRow, Camera.pixelResult,
      Camera.ray_for_pixel, Camera.new, Canvas.new, writeStep, Canvas.write_pixel,
      cfConst, V4.normalize, V4.dot, V4.sub, V4.smul, Matrix.mulVec, V4.point,
      IDENTITY, List.replicate]
  exact (render_all_or_nothing Unit (fun q => q) cfConst (Camera.new 1 1 1)).1
    ⟨1, 1, [[⟨1, 2, 3⟩]]⟩ hrender 0 0 (by norm_num [Camera.new]) (by norm_num [Camera.new])

end RT
